import Mathlib

/-!
Verification of the date-calculation and calendar-conversion core of the
age-calculator repository (`src/Bottl.py`).

The Python source works with `datetime.date` values, `(year, month, day)`
Jalali tuples, and strings.  We embed dates as triples of integers,
Python exceptions as an explicit error type (`Except Err`), and strings as
Lean `String`s.  The Jalali conversion backend (`convertdate`/`jdatetime`)
is an external dependency whose sources are not part of the repository;
it is modelled from the spec as an epoch-based day-number conversion with
a 33-year leap cycle (which the spec explicitly permits).
-/

/-- Error conditions of the core, as the spec names them. -/
inductive Err where
  | InvalidFormat
  | InvalidCalendarDate
  | FutureBirthdate
  | CapabilityUnavailable
  deriving DecidableEq, Repr

/-- A Gregorian calendar date, mirroring Python's `datetime.date` value
(year, month, day as integers). -/
structure GDate where
  year : Int
  month : Int
  day : Int
  deriving DecidableEq, Repr

/-- A Jalali calendar date `(jy, jm, jd)`. -/
structure JDate where
  year : Int
  month : Int
  day : Int
  deriving DecidableEq, Repr

/-- Gregorian leap year rule (as used by Python's `calendar` module). -/
def gregLeap (y : Int) : Prop := y % 4 = 0 ∧ (y % 100 ≠ 0 ∨ y % 400 = 0)

instance (y : Int) : Decidable (gregLeap y) := by
  unfold gregLeap; infer_instance

/-- Month lengths of a Gregorian year, `calendar.monthrange(y, m)[1]` for
`m = 1..12`. -/
def gregMonthLens (y : Int) : List Nat :=
  [31, if gregLeap y then 29 else 28, 31, 30, 31, 30, 31, 31, 30, 31, 30, 31]

/-- `calendar.monthrange(y, m)[1]` : the number of days of month `m` of
Gregorian year `y`. -/
def monthLen (y m : Int) : Int :=
  ((gregMonthLens y).getD (m - 1).toNat 0 : Nat)

/-- The invariant of Python's `datetime.date` apart from its year range:
month in 1..12 and day in 1..(days of the month). -/
def GValid (g : GDate) : Prop :=
  1 ≤ g.month ∧ g.month ≤ 12 ∧ 1 ≤ g.day ∧ g.day ≤ monthLen g.year g.month

instance (g : GDate) : Decidable (GValid g) := by
  unfold GValid; infer_instance

/-- Modelled from the spec: the Jalali leap-year rule, taken as the
classical 33-year cycle (leap years 1, 5, 9, 13, 17, 22, 26, 30 of each
cycle).  The spec accepts any internally consistent rule. -/
def jalaliLeap (y : Int) : Prop := (25 * y + 11) % 33 < 8

instance (y : Int) : Decidable (jalaliLeap y) := by
  unfold jalaliLeap; infer_instance

/-- Modelled from the spec: month lengths of a Jalali year (months 1–6
have 31 days, 7–11 have 30, month 12 has 29, or 30 in leap years). -/
def jalaliMonthLens (y : Int) : List Nat :=
  [31, 31, 31, 31, 31, 31, 30, 30, 30, 30, 30, if jalaliLeap y then 30 else 29]

/-- Number of days of month `m` of Jalali year `y`. -/
def jMonthLen (y m : Int) : Int :=
  ((jalaliMonthLens y).getD (m - 1).toNat 0 : Nat)

/-- Structural validity of a Jalali date. -/
def JValid (j : JDate) : Prop :=
  1 ≤ j.month ∧ j.month ≤ 12 ∧ 1 ≤ j.day ∧ j.day ≤ jMonthLen j.year j.month

instance (j : JDate) : Decidable (JValid j) := by
  unfold JValid; infer_instance

/-- Python's `date` comparison: lexicographic on (year, month, day). -/
def dlt (a b : GDate) : Prop :=
  a.year < b.year ∨ (a.year = b.year ∧
    (a.month < b.month ∨ (a.month = b.month ∧ a.day < b.day)))

instance (a b : GDate) : Decidable (dlt a b) := by
  unfold dlt; infer_instance

/-- Python's `date` comparison `<=`. -/
def dle (a b : GDate) : Prop := dlt a b ∨ a = b

instance (a b : GDate) : Decidable (dle a b) := by
  unfold dle; infer_instance

/-! ## Within-year ordinals

Converting between a (month, day) pair (both 1-based) and the 0-based
ordinal of the day within its year, for a given list of month lengths. -/

/-- Ordinal (0-based) of day `d` of month `m` within a year whose month
lengths are `Ls`. -/
def ordOfMonths : List Nat → Nat → Nat → Nat
  | [], _, d => d - 1
  | L :: Ls, m, d => if m ≤ 1 then d - 1 else L + ordOfMonths Ls (m - 1) d

/-- Recover the (month, day) pair from a within-year ordinal. -/
def mdOfOrd : List Nat → Nat → Nat × Nat
  | [], r => (1, r + 1)
  | L :: Ls, r =>
    if r < L then (1, r + 1)
    else
      let p := mdOfOrd Ls (r - L)
      (p.1 + 1, p.2)

/-- Validity of a (month, day) pair against a list of month lengths. -/
def MDValid (Ls : List Nat) (m d : Nat) : Prop :=
  1 ≤ m ∧ m ≤ Ls.length ∧ 1 ≤ d ∧ d ≤ Ls.getD (m - 1) 0

theorem getD_cons_pred (L : Nat) (Ls : List Nat) (m : Nat) (h : 2 ≤ m) :
    (L :: Ls).getD (m - 1) 0 = Ls.getD (m - 1 - 1) 0 := by
  rcases Nat.exists_eq_add_of_le h with ⟨k, hk⟩
  subst hk
  have h1 : 2 + k - 1 = k + 1 := by omega
  rw [h1]
  have h2 : k + 1 - 1 = k := by omega
  rw [h2]
  simp [List.getD]

theorem mdOfOrd_ordOfMonths (Ls : List Nat) :
    ∀ m d, MDValid Ls m d → mdOfOrd Ls (ordOfMonths Ls m d) = (m, d) := by
  induction Ls with
  | nil =>
    intro m d h
    rcases h with ⟨h1, h2, _, _⟩
    simp at h2; omega
  | cons L Ls ih =>
    intro m d h
    rcases h with ⟨h1, h2, h3, h4⟩
    by_cases hm : m ≤ 1
    · have hm1 : m = 1 := by omega
      subst hm1
      simp only [List.getD, List.get?] at h4
      simp only [ordOfMonths, mdOfOrd, if_pos (by omega : 1 ≤ 1)]
      have hd : d - 1 < L := by
        simp at h4; omega
      rw [if_pos hd]
      congr 1
      omega
    · simp only [ordOfMonths, if_neg hm, mdOfOrd]
      have hnot : ¬ (L + ordOfMonths Ls (m - 1) d < L) := by omega
      rw [if_neg hnot]
      have harg : L + ordOfMonths Ls (m - 1) d - L = ordOfMonths Ls (m - 1) d := by
        omega
      rw [harg]
      have hvalid : MDValid Ls (m - 1) d := by
        refine ⟨by omega, ?_, h3, ?_⟩
        · simp at h2; omega
        · rw [getD_cons_pred L Ls m (by omega)] at h4; exact h4
      rw [ih (m - 1) d hvalid]
      have hm' : m - 1 + 1 = m := by omega
      rw [hm']

theorem ordOfMonths_mdOfOrd (Ls : List Nat) :
    ∀ r, r < Ls.sum →
      MDValid Ls (mdOfOrd Ls r).1 (mdOfOrd Ls r).2 ∧
      ordOfMonths Ls (mdOfOrd Ls r).1 (mdOfOrd Ls r).2 = r := by
  induction Ls with
  | nil => intro r h; simp at h
  | cons L Ls ih =>
    intro r h
    by_cases hr : r < L
    · simp only [mdOfOrd, if_pos hr]
      constructor
      · exact ⟨by omega, by simp, by omega, by simp [List.getD]; omega⟩
      · simp [ordOfMonths]
    · simp only [mdOfOrd, if_neg hr]
      have hsum : r - L < Ls.sum := by
        simp [List.sum_cons] at h; omega
      rcases ih (r - L) hsum with ⟨⟨v1, v2, v3, v4⟩, heq⟩
      constructor
      · refine ⟨by omega, by simp; omega, v3, ?_⟩
        have hi : (mdOfOrd Ls (r - L)).1 + 1 - 1 = ((mdOfOrd Ls (r - L)).1 - 1) + 1 := by
          omega
        rw [hi]
        have : (L :: Ls).getD (((mdOfOrd Ls (r - L)).1 - 1) + 1) 0
            = Ls.getD ((mdOfOrd Ls (r - L)).1 - 1) 0 := by
          simp [List.getD]
        rw [this]; exact v4
      · simp only [ordOfMonths]
        rw [if_neg (by omega)]
        have : (mdOfOrd Ls (r - L)).1 + 1 - 1 = (mdOfOrd Ls (r - L)).1 := by omega
        rw [this, heq]
        omega

theorem ordOfMonths_lt_sum (Ls : List Nat) :
    ∀ m d, MDValid Ls m d → ordOfMonths Ls m d < Ls.sum := by
  induction Ls with
  | nil => intro m d h; rcases h with ⟨h1, h2, _, _⟩; simp at h2; omega
  | cons L Ls ih =>
    intro m d h
    rcases h with ⟨h1, h2, h3, h4⟩
    by_cases hm : m ≤ 1
    · simp only [ordOfMonths, if_pos hm]
      have : d ≤ L := by
        have hm1 : m = 1 := by omega
        subst hm1; simpa [List.getD] using h4
      simp [List.sum_cons]; omega
    · simp only [ordOfMonths, if_neg hm, List.sum_cons]
      have hvalid : MDValid Ls (m - 1) d := by
        refine ⟨by omega, by simp at h2; omega, h3, ?_⟩
        rw [getD_cons_pred L Ls m (by omega)] at h4; exact h4
      have := ih (m - 1) d hvalid
      omega

theorem ordOfMonths_mono (Ls : List Nat) :
    ∀ m1 d1 m2 d2, MDValid Ls m1 d1 → MDValid Ls m2 d2 →
      (m1 < m2 ∨ (m1 = m2 ∧ d1 < d2)) →
      ordOfMonths Ls m1 d1 < ordOfMonths Ls m2 d2 := by
  induction Ls with
  | nil =>
    intro m1 d1 m2 d2 h1 _ _
    rcases h1 with ⟨a, b, _, _⟩; simp at b; omega
  | cons L Ls ih =>
    intro m1 d1 m2 d2 h1 h2 hlt
    rcases h1 with ⟨a1, b1, c1, e1⟩
    rcases h2 with ⟨a2, b2, c2, e2⟩
    by_cases hm1 : m1 ≤ 1
    · have hm1e : m1 = 1 := by omega
      subst hm1e
      have hd1 : d1 ≤ L := by simpa [List.getD] using e1
      by_cases hm2 : m2 ≤ 1
      · have hm2e : m2 = 1 := by omega
        subst hm2e
        simp only [ordOfMonths, if_pos (by omega : (1:Nat) ≤ 1)]
        omega
      · simp only [ordOfMonths, if_pos (by omega : (1:Nat) ≤ 1), if_neg hm2]
        omega
    · have hm2 : ¬ m2 ≤ 1 := by omega
      simp only [ordOfMonths, if_neg hm1, if_neg hm2]
      have hv1 : MDValid Ls (m1 - 1) d1 := by
        refine ⟨by omega, by simp at b1; omega, c1, ?_⟩
        rw [getD_cons_pred L Ls m1 (by omega)] at e1; exact e1
      have hv2 : MDValid Ls (m2 - 1) d2 := by
        refine ⟨by omega, by simp at b2; omega, c2, ?_⟩
        rw [getD_cons_pred L Ls m2 (by omega)] at e2; exact e2
      have := ih (m1 - 1) d1 (m2 - 1) d2 hv1 hv2 (by omega)
      omega

/-! ## Year-level day numbering

`gDaysBefore y` is the number of days from Gregorian 0001-01-01 to the
first day of year `y` (negative for years before 1); similarly
`jDaysBefore` for the Jalali calendar. -/

/-- Length of a Gregorian year in days. -/
def gYearLen (y : Int) : Nat := if gregLeap y then 366 else 365

/-- Length of a Jalali year in days. -/
def jYearLen (y : Int) : Nat := if jalaliLeap y then 366 else 365

theorem gYearLen_pos (y : Int) : 0 < gYearLen y := by
  unfold gYearLen; split <;> omega

theorem jYearLen_pos (y : Int) : 0 < jYearLen y := by
  unfold jYearLen; split <;> omega

theorem gregMonthLens_sum (y : Int) : (gregMonthLens y).sum = gYearLen y := by
  unfold gregMonthLens gYearLen
  by_cases h : gregLeap y <;> simp [h]

theorem jalaliMonthLens_sum (y : Int) : (jalaliMonthLens y).sum = jYearLen y := by
  unfold jalaliMonthLens jYearLen
  by_cases h : jalaliLeap y <;> simp [h]

theorem gregMonthLens_length (y : Int) : (gregMonthLens y).length = 12 := rfl

theorem jalaliMonthLens_length (y : Int) : (jalaliMonthLens y).length = 12 := rfl

/-- Days from Gregorian 0001-01-01 to the start of year `y` (proleptic). -/
def gDaysBefore (y : Int) : Int :=
  365 * (y - 1) + (y - 1) / 4 - (y - 1) / 100 + (y - 1) / 400

/-- Modelled from the spec: days from Jalali 0001-01-01 to the start of
Jalali year `y`, under the 33-year leap cycle. -/
def jDaysBefore (y : Int) : Int :=
  365 * (y - 1) + (8 * (y - 1) + 29) / 33

theorem gDaysBefore_step (y : Int) :
    gDaysBefore (y + 1) = gDaysBefore y + gYearLen y := by
  unfold gYearLen
  rcases Classical.em (gregLeap y) with h | h
  · rw [if_pos h]
    unfold gregLeap at h
    unfold gDaysBefore
    have h1 : y + 1 - 1 = y := by ring
    rw [h1]
    omega
  · rw [if_neg h]
    unfold gregLeap at h
    unfold gDaysBefore
    have h1 : y + 1 - 1 = y := by ring
    rw [h1]
    omega

theorem jDaysBefore_step (y : Int) :
    jDaysBefore (y + 1) = jDaysBefore y + jYearLen y := by
  unfold jYearLen
  obtain ⟨q, r, hr0, hr33, hy⟩ : ∃ q r : Int, 0 ≤ r ∧ r < 33 ∧ y = 33 * q + r :=
    ⟨y / 33, y % 33, by omega, by omega, by omega⟩
  rcases Classical.em (jalaliLeap y) with h | h
  · rw [if_pos h]
    unfold jalaliLeap at h
    unfold jDaysBefore
    subst hy
    interval_cases r <;> omega
  · rw [if_neg h]
    unfold jalaliLeap at h
    unfold jDaysBefore
    subst hy
    interval_cases r <;> omega

theorem daysBefore_mono (len : Int → Nat) (daysBefore : Int → Int)
    (hstep : ∀ y, daysBefore (y + 1) = daysBefore y + len y) :
    ∀ (a b : Int), a ≤ b → daysBefore a ≤ daysBefore b := by
  have key : ∀ (k : Nat) (a : Int), daysBefore a ≤ daysBefore (a + k) := by
    intro k
    induction k with
    | zero => intro a; simp
    | succ n ih =>
      intro a
      have h1 : daysBefore a ≤ daysBefore (a + n) := ih a
      have h2 : daysBefore (a + n + 1) = daysBefore (a + n) + len (a + n) := hstep _
      have h3 : a + ((n + 1 : Nat) : Int) = a + n + 1 := by push_cast; ring
      rw [h3, h2]
      have : (0 : Int) ≤ len (a + n) := by positivity
      omega
  intro a b hab
  have h := key (b - a).toNat a
  have heq : a + ((b - a).toNat : Int) = b := by omega
  rwa [heq] at h

/-- Find, starting from year `base`, the year containing the day that is
`r` days after the start of `base`, together with the day's ordinal in
that year. -/
def yearFromOrd (len : Int → Nat) (hpos : ∀ y, 0 < len y) (base : Int) (r : Nat) :
    Int × Nat :=
  if h : r < len base then (base, r)
  else yearFromOrd len hpos (base + 1) (r - len base)
termination_by r
decreasing_by
  have := hpos base
  omega

theorem yearFromOrd_inv (len : Int → Nat) (hpos : ∀ y, 0 < len y)
    (daysBefore : Int → Int)
    (hstep : ∀ y, daysBefore (y + 1) = daysBefore y + len y) :
    ∀ (r : Nat) (base : Int),
      base ≤ (yearFromOrd len hpos base r).1 ∧
      (yearFromOrd len hpos base r).2 < len (yearFromOrd len hpos base r).1 ∧
      daysBefore (yearFromOrd len hpos base r).1 +
        ((yearFromOrd len hpos base r).2 : Int) = daysBefore base + r := by
  intro r
  induction r using Nat.strong_induction_on with
  | _ r ih =>
    intro base
    rw [yearFromOrd]
    by_cases h : r < len base
    · rw [dif_pos h]
      exact ⟨le_refl _, h, by ring⟩
    · rw [dif_neg h]
      have hlen := hpos base
      have hr' : r - len base < r := by omega
      obtain ⟨i1, i2, i3⟩ := ih (r - len base) hr' (base + 1)
      refine ⟨by omega, i2, ?_⟩
      rw [i3, hstep base]
      omega

theorem yearFromOrd_eq (len : Int → Nat) (hpos : ∀ y, 0 < len y)
    (daysBefore : Int → Int)
    (hstep : ∀ y, daysBefore (y + 1) = daysBefore y + len y) :
    ∀ (k : Nat) (base y : Int), base + k = y → ∀ r, r < len y →
      yearFromOrd len hpos base ((daysBefore y - daysBefore base).toNat + r) = (y, r) := by
  intro k
  induction k with
  | zero =>
    intro base y hby r hr
    have hyb : y = base := by omega
    subst hyb
    have h0 : (daysBefore y - daysBefore y).toNat + r = r := by omega
    rw [h0, yearFromOrd, dif_pos hr]
  | succ n ih =>
    intro base y hby r hr
    have hb1 : base + 1 + (n : Int) = y := by push_cast at hby ⊢; omega
    have hmono : daysBefore (base + 1) ≤ daysBefore y :=
      daysBefore_mono len daysBefore hstep (base + 1) y (by omega)
    have hstepb := hstep base
    have hlen := hpos base
    have harg : ¬ ((daysBefore y - daysBefore base).toNat + r < len base) := by
      omega
    rw [yearFromOrd, dif_neg harg]
    have harg2 : (daysBefore y - daysBefore base).toNat + r - len base
        = (daysBefore y - daysBefore (base + 1)).toNat + r := by
      omega
    rw [harg2]
    exact ih (base + 1) y hb1 r hr

/-! ## Gregorian day numbers -/

/-- Day number of a Gregorian date (0 for 0001-01-01), the quantity
underlying Python's `date.toordinal` (shifted by one). -/
def gJdn (g : GDate) : Int :=
  gDaysBefore g.year +
    (ordOfMonths (gregMonthLens g.year) g.month.toNat g.day.toNat : Int)

/-- Year and within-year ordinal of a Gregorian day number, located via
the 400-year cycle (146097 days). -/
def gYearOrd (n : Int) : Int × Nat :=
  yearFromOrd gYearLen gYearLen_pos (400 * (n / 146097) + 1)
    (n - 146097 * (n / 146097)).toNat

/-- Gregorian date of a day number. -/
def gOfJdn (n : Int) : GDate :=
  ⟨(gYearOrd n).1,
   ((mdOfOrd (gregMonthLens (gYearOrd n).1) (gYearOrd n).2).1 : Int),
   ((mdOfOrd (gregMonthLens (gYearOrd n).1) (gYearOrd n).2).2 : Int)⟩

theorem gDaysBefore_cycle (q : Int) : gDaysBefore (400 * q + 1) = 146097 * q := by
  unfold gDaysBefore; omega

theorem GValid_MDValid (g : GDate) (h : GValid g) :
    MDValid (gregMonthLens g.year) g.month.toNat g.day.toNat := by
  obtain ⟨h1, h2, h3, h4⟩ := h
  unfold monthLen at h4
  refine ⟨by omega, ?_, by omega, ?_⟩
  · rw [gregMonthLens_length]; omega
  · have heq : (g.month - 1).toNat = g.month.toNat - 1 := by omega
    rw [heq] at h4
    omega

theorem MDValid_GValid (y : Int) (m d : Nat)
    (h : MDValid (gregMonthLens y) m d) :
    GValid ⟨y, (m : Int), (d : Int)⟩ := by
  obtain ⟨h1, h2, h3, h4⟩ := h
  rw [gregMonthLens_length] at h2
  unfold GValid monthLen
  dsimp only
  have heq : ((m : Int) - 1).toNat = m - 1 := by omega
  rw [heq]
  exact ⟨by omega, by omega, by omega, by omega⟩

theorem gJdn_gOfJdn (n : Int) : gJdn (gOfJdn n) = n ∧ GValid (gOfJdn n) := by
  obtain ⟨i1, i2, i3⟩ := yearFromOrd_inv gYearLen gYearLen_pos gDaysBefore
    gDaysBefore_step (n - 146097 * (n / 146097)).toNat (400 * (n / 146097) + 1)
  have hfold : yearFromOrd gYearLen gYearLen_pos (400 * (n / 146097) + 1)
      (n - 146097 * (n / 146097)).toNat = gYearOrd n := rfl
  rw [hfold] at i1 i2 i3
  have hq : 0 ≤ n - 146097 * (n / 146097) := by omega
  have hsum : (gYearOrd n).2 < (gregMonthLens (gYearOrd n).1).sum := by
    rw [gregMonthLens_sum]; exact i2
  obtain ⟨hvalid, hord⟩ :=
    ordOfMonths_mdOfOrd (gregMonthLens (gYearOrd n).1) (gYearOrd n).2 hsum
  rw [gDaysBefore_cycle] at i3
  constructor
  · unfold gJdn gOfJdn
    dsimp only
    rw [Int.toNat_natCast, Int.toNat_natCast, hord]
    omega
  · exact MDValid_GValid (gYearOrd n).1 _ _ hvalid

theorem gOfJdn_gJdn (g : GDate) (h : GValid g) : gOfJdn (gJdn g) = g := by
  have hmd := GValid_MDValid g h
  have hordlt := ordOfMonths_lt_sum (gregMonthLens g.year) g.month.toNat g.day.toNat hmd
  rw [gregMonthLens_sum] at hordlt
  have hstep := gDaysBefore_step g.year
  have hexp : gJdn g = gDaysBefore g.year
      + (ordOfMonths (gregMonthLens g.year) g.month.toNat g.day.toNat : Int) := rfl
  have hcyc := gDaysBefore_cycle (gJdn g / 146097)
  have hmod : 146097 * (gJdn g / 146097) ≤ gJdn g := by omega
  have hbase_le : 400 * (gJdn g / 146097) + 1 ≤ g.year := by
    by_contra hc
    push_neg at hc
    have hmono := daysBefore_mono gYearLen gDaysBefore gDaysBefore_step
      (g.year + 1) (400 * (gJdn g / 146097) + 1) (by omega)
    omega
  have hmono2 := daysBefore_mono gYearLen gDaysBefore gDaysBefore_step
    (400 * (gJdn g / 146097) + 1) g.year hbase_le
  have hkey := yearFromOrd_eq gYearLen gYearLen_pos gDaysBefore gDaysBefore_step
    (g.year - (400 * (gJdn g / 146097) + 1)).toNat (400 * (gJdn g / 146097) + 1)
    g.year (by omega) (ordOfMonths (gregMonthLens g.year) g.month.toNat g.day.toNat)
    hordlt
  have harg : (gJdn g - 146097 * (gJdn g / 146097)).toNat
      = (gDaysBefore g.year - gDaysBefore (400 * (gJdn g / 146097) + 1)).toNat
        + ordOfMonths (gregMonthLens g.year) g.month.toNat g.day.toNat := by
    omega
  have hyo : gYearOrd (gJdn g)
      = (g.year, ordOfMonths (gregMonthLens g.year) g.month.toNat g.day.toNat) := by
    unfold gYearOrd
    rw [harg]
    exact hkey
  unfold gOfJdn
  rw [hyo]
  dsimp only
  rw [mdOfOrd_ordOfMonths (gregMonthLens g.year) g.month.toNat g.day.toNat hmd]
  obtain ⟨v1, v2, v3, v4⟩ := h
  cases g with
  | mk gy gm gd =>
    simp only at v1 v3 ⊢
    congr 1 <;> omega

theorem gJdn_strict_mono (a b : GDate) (ha : GValid a) (hb : GValid b)
    (hab : dlt a b) : gJdn a < gJdn b := by
  have hmda := GValid_MDValid a ha
  have hmdb := GValid_MDValid b hb
  have horda := ordOfMonths_lt_sum _ _ _ hmda
  have hordb := ordOfMonths_lt_sum _ _ _ hmdb
  rw [gregMonthLens_sum] at horda hordb
  rcases hab with hy | ⟨hy, hm⟩
  · have hstep := gDaysBefore_step a.year
    have hmono := daysBefore_mono gYearLen gDaysBefore gDaysBefore_step
      (a.year + 1) b.year (by omega)
    unfold gJdn
    omega
  · obtain ⟨a1, a2, a3, a4⟩ := ha
    obtain ⟨b1, b2, b3, b4⟩ := hb
    have hmono := ordOfMonths_mono (gregMonthLens b.year)
      a.month.toNat a.day.toNat b.month.toNat b.day.toNat
      (by rw [hy] at hmda; exact hmda) hmdb (by omega)
    unfold gJdn
    rw [hy]
    omega

/-! ## Jalali day numbers

The Jalali day numbering is aligned with the Gregorian one through the
fixed offset 226894, anchored at the spec's golden pair
(Gregorian 2025-10-18 ↔ Jalali 1404-07-26). -/

/-- Day-number offset between the two calendars (Jalali 0001-01-01 falls
226894 days after Gregorian 0001-01-01). -/
def jalaliEpochShift : Int := 226894

/-- Day number of a Jalali date, on the same scale as `gJdn`. -/
def jJdn (j : JDate) : Int :=
  jDaysBefore j.year +
    (ordOfMonths (jalaliMonthLens j.year) j.month.toNat j.day.toNat : Int) +
    jalaliEpochShift

theorem jDaysBefore_cycle (q : Int) : jDaysBefore (33 * q + 1) = 12053 * q := by
  unfold jDaysBefore; omega

/-- Year and within-year ordinal of a Jalali day number, located via the
33-year cycle (12053 days). -/
def jYearOrd (n : Int) : Int × Nat :=
  yearFromOrd jYearLen jYearLen_pos (33 * ((n - jalaliEpochShift) / 12053) + 1)
    ((n - jalaliEpochShift) - 12053 * ((n - jalaliEpochShift) / 12053)).toNat

/-- Jalali date of a day number on the `gJdn` scale. -/
def jOfJdn (n : Int) : JDate :=
  ⟨(jYearOrd n).1,
   ((mdOfOrd (jalaliMonthLens (jYearOrd n).1) (jYearOrd n).2).1 : Int),
   ((mdOfOrd (jalaliMonthLens (jYearOrd n).1) (jYearOrd n).2).2 : Int)⟩

theorem JValid_MDValid (j : JDate) (h : JValid j) :
    MDValid (jalaliMonthLens j.year) j.month.toNat j.day.toNat := by
  obtain ⟨h1, h2, h3, h4⟩ := h
  unfold jMonthLen at h4
  refine ⟨by omega, ?_, by omega, ?_⟩
  · rw [jalaliMonthLens_length]; omega
  · have heq : (j.month - 1).toNat = j.month.toNat - 1 := by omega
    rw [heq] at h4
    omega

theorem MDValid_JValid (y : Int) (m d : Nat)
    (h : MDValid (jalaliMonthLens y) m d) :
    JValid ⟨y, (m : Int), (d : Int)⟩ := by
  obtain ⟨h1, h2, h3, h4⟩ := h
  rw [jalaliMonthLens_length] at h2
  unfold JValid jMonthLen
  dsimp only
  have heq : ((m : Int) - 1).toNat = m - 1 := by omega
  rw [heq]
  exact ⟨by omega, by omega, by omega, by omega⟩

theorem jJdn_jOfJdn (n : Int) : jJdn (jOfJdn n) = n ∧ JValid (jOfJdn n) := by
  obtain ⟨i1, i2, i3⟩ := yearFromOrd_inv jYearLen jYearLen_pos jDaysBefore
    jDaysBefore_step
    ((n - jalaliEpochShift) - 12053 * ((n - jalaliEpochShift) / 12053)).toNat
    (33 * ((n - jalaliEpochShift) / 12053) + 1)
  have hfold : yearFromOrd jYearLen jYearLen_pos
      (33 * ((n - jalaliEpochShift) / 12053) + 1)
      ((n - jalaliEpochShift) - 12053 * ((n - jalaliEpochShift) / 12053)).toNat
      = jYearOrd n := rfl
  rw [hfold] at i1 i2 i3
  have hq : 0 ≤ (n - jalaliEpochShift) - 12053 * ((n - jalaliEpochShift) / 12053) := by
    omega
  have hsum : (jYearOrd n).2 < (jalaliMonthLens (jYearOrd n).1).sum := by
    rw [jalaliMonthLens_sum]; exact i2
  obtain ⟨hvalid, hord⟩ :=
    ordOfMonths_mdOfOrd (jalaliMonthLens (jYearOrd n).1) (jYearOrd n).2 hsum
  rw [jDaysBefore_cycle] at i3
  constructor
  · unfold jJdn jOfJdn
    dsimp only
    rw [Int.toNat_natCast, Int.toNat_natCast, hord]
    unfold jalaliEpochShift at i3 ⊢
    omega
  · exact MDValid_JValid (jYearOrd n).1 _ _ hvalid

theorem jOfJdn_jJdn (j : JDate) (h : JValid j) : jOfJdn (jJdn j) = j := by
  have hmd := JValid_MDValid j h
  have hordlt := ordOfMonths_lt_sum (jalaliMonthLens j.year) j.month.toNat j.day.toNat hmd
  rw [jalaliMonthLens_sum] at hordlt
  have hstep := jDaysBefore_step j.year
  have hexp : jJdn j - jalaliEpochShift = jDaysBefore j.year
      + (ordOfMonths (jalaliMonthLens j.year) j.month.toNat j.day.toNat : Int) := by
    unfold jJdn; ring
  have hcyc := jDaysBefore_cycle ((jJdn j - jalaliEpochShift) / 12053)
  have hmod : 12053 * ((jJdn j - jalaliEpochShift) / 12053) ≤ jJdn j - jalaliEpochShift := by
    omega
  have hbase_le : 33 * ((jJdn j - jalaliEpochShift) / 12053) + 1 ≤ j.year := by
    by_contra hc
    push_neg at hc
    have hmono := daysBefore_mono jYearLen jDaysBefore jDaysBefore_step
      (j.year + 1) (33 * ((jJdn j - jalaliEpochShift) / 12053) + 1) (by omega)
    omega
  have hmono2 := daysBefore_mono jYearLen jDaysBefore jDaysBefore_step
    (33 * ((jJdn j - jalaliEpochShift) / 12053) + 1) j.year hbase_le
  have hkey := yearFromOrd_eq jYearLen jYearLen_pos jDaysBefore jDaysBefore_step
    (j.year - (33 * ((jJdn j - jalaliEpochShift) / 12053) + 1)).toNat
    (33 * ((jJdn j - jalaliEpochShift) / 12053) + 1)
    j.year (by omega) (ordOfMonths (jalaliMonthLens j.year) j.month.toNat j.day.toNat)
    hordlt
  have harg : ((jJdn j - jalaliEpochShift)
        - 12053 * ((jJdn j - jalaliEpochShift) / 12053)).toNat
      = (jDaysBefore j.year
          - jDaysBefore (33 * ((jJdn j - jalaliEpochShift) / 12053) + 1)).toNat
        + ordOfMonths (jalaliMonthLens j.year) j.month.toNat j.day.toNat := by
    omega
  have hyo : jYearOrd (jJdn j)
      = (j.year, ordOfMonths (jalaliMonthLens j.year) j.month.toNat j.day.toNat) := by
    unfold jYearOrd
    rw [harg]
    exact hkey
  unfold jOfJdn
  rw [hyo]
  dsimp only
  rw [mdOfOrd_ordOfMonths (jalaliMonthLens j.year) j.month.toNat j.day.toNat hmd]
  obtain ⟨v1, v2, v3, v4⟩ := h
  cases j with
  | mk jy jm jd =>
    simp only at v1 v3 ⊢
    congr 1 <;> omega

/-! ## Jalali conversion wrappers (`gdate_to_jtuple`, `jtuple_to_gdate`) -/

/-- Modelled from the spec: the backend conversion Gregorian → Jalali
(the `convertdate`/`jdatetime` dependency is not part of the repository),
realised as an epoch-based day-number conversion. -/
def gregorianToJalali (g : GDate) : Int × Int × Int :=
  ((jOfJdn (gJdn g)).year, (jOfJdn (gJdn g)).month, (jOfJdn (gJdn g)).day)

/-- Modelled from the spec: the backend conversion Jalali → Gregorian,
failing with `InvalidCalendarDate` on a structurally invalid tuple. -/
def jalaliToGregorian (jy jm jd_ : Int) : Except Err GDate :=
  if JValid ⟨jy, jm, jd_⟩ then .ok (gOfJdn (jJdn ⟨jy, jm, jd_⟩))
  else .error .InvalidCalendarDate

/-- `gdate_to_jtuple(gd)` : raises when no Jalali backend is available
(`JALALI_OK` false), otherwise delegates to the backend. -/
def gdate_to_jtuple (jalaliOk : Bool) (gd : GDate) : Except Err (Int × Int × Int) :=
  if ! jalaliOk then .error .CapabilityUnavailable
  else .ok (gregorianToJalali gd)

/-- `jtuple_to_gdate(jy, jm, jd_)` : raises when no Jalali backend is
available, otherwise delegates to the backend. -/
def jtuple_to_gdate (jalaliOk : Bool) (jy jm jd_ : Int) : Except Err GDate :=
  if ! jalaliOk then .error .CapabilityUnavailable
  else jalaliToGregorian jy jm jd_

/-! ## Age math (`age_ymd`, `next_birthday_after`, `days_until_next_birthday`) -/

/-- `age_ymd(born, today)` : the (years, months, days) difference, with a
borrow from the month preceding `today` when the day difference is
negative, raising `FutureBirthdate` when `born > today`. -/
def age_ymd (born today : GDate) : Except Err (Int × Int × Int) :=
  if dlt today born then .error .FutureBirthdate
  else
    let y := today.year - born.year
    let m := today.month - born.month
    let d := today.day - born.day
    let pm : Int × Int :=
      if today.month = 1 then (12, today.year - 1)
      else (today.month - 1, today.year)
    let d2 := if d < 0 then d + monthLen pm.2 pm.1 else d
    let m2 := if d < 0 then m - 1 else m
    let m3 := if m2 < 0 then m2 + 12 else m2
    let y3 := if m2 < 0 then y - 1 else y
    .ok (y3, m3, d2)

/-- `_safe_date(y, m, d)` : clamp the day to the last valid day of the
month. -/
def _safe_date (y m d : Int) : GDate := ⟨y, m, min d (monthLen y m)⟩

/-- `next_birthday_after(born, today)` : the safe date with today's year
and born's month/day, pushed to the next year if not after today. -/
def next_birthday_after (born today : GDate) : GDate :=
  if dle (_safe_date today.year born.month born.day) today then
    _safe_date (today.year + 1) born.month born.day
  else _safe_date today.year born.month born.day

/-- `days_until_next_birthday(born, today)` : Python date subtraction is
the difference of day numbers. -/
def days_until_next_birthday (born today : GDate) : Int :=
  gJdn (next_birthday_after born today) - gJdn today

/-! ## Parsing (`normalize_digits`, `_normalize_sep`, `parse_gregorian`,
`parse_jalali_tuple`) -/

/-- The `P2L_DIGITS` translation table: Persian (U+06F0–U+06F9) and
Arabic-Indic (U+0660–U+0669) digits to ASCII. -/
def P2L (c : Char) : Char :=
  if 0x6F0 ≤ c.toNat ∧ c.toNat ≤ 0x6F9 then Char.ofNat (c.toNat - 0x6F0 + 48)
  else if 0x660 ≤ c.toNat ∧ c.toNat ≤ 0x669 then Char.ofNat (c.toNat - 0x660 + 48)
  else c

/-- `normalize_digits(s)` : translate every character through `P2L`. -/
def normalize_digits (s : String) : String := String.mk (s.data.map P2L)

/-- The digit class of Python's regex (restricted to the alphabets the
program handles): ASCII, Persian and Arabic-Indic digits. -/
def isUniDigit (c : Char) : Bool :=
  c.isDigit || (decide (0x6F0 ≤ c.toNat) && decide (c.toNat ≤ 0x6F9))
    || (decide (0x660 ≤ c.toNat) && decide (c.toNat ≤ 0x669))

/-- Numeric value of a digit character, as Python's `int` sees it. -/
def digitVal (c : Char) : Nat :=
  if c.isDigit then c.toNat - 48
  else if 0x6F0 ≤ c.toNat ∧ c.toNat ≤ 0x6F9 then c.toNat - 0x6F0
  else c.toNat - 0x660

/-- Python's `str.strip()` : drop whitespace from both ends. -/
def trimChars (l : List Char) : List Char :=
  ((l.dropWhile Char.isWhitespace).reverse.dropWhile Char.isWhitespace).reverse

/-- `_normalize_sep(s)` : strip whitespace, replace the separators `/`
and `.` by `-`. -/
def _normalize_sep (s : String) : String :=
  String.mk ((trimChars s.data).map (fun c => if c = '/' ∨ c = '.' then '-' else c))

/-- Split a character list at every dash, as `s.split("-")` does. -/
def splitDash : List Char → List (List Char)
  | [] => [[]]
  | c :: cs =>
    if c = '-' then [] :: splitDash cs
    else
      match splitDash cs with
      | [] => [[c]]
      | p :: ps => (c :: p) :: ps

/-- One date component of the pattern: `lo` to `hi` digit characters. -/
def datePartOk (p : List Char) (lo hi : Nat) : Bool :=
  decide (lo ≤ p.length) && decide (p.length ≤ hi) && p.all isUniDigit

/-- Python `int` on a digit string. -/
def intOfDigitList (l : List Char) : Nat :=
  l.foldl (fun a c => 10 * a + digitVal c) 0

/-- The full match of the pattern (4 digits, dash, 1–2 digits, dash, 1–2
digits) combined with the split into the three integer components. -/
def parseTriple (s : String) : Option (Int × Int × Int) :=
  match splitDash s.data with
  | [a, b, c] =>
    if datePartOk a 4 4 && datePartOk b 1 2 && datePartOk c 1 2 then
      some ((intOfDigitList a : Int), (intOfDigitList b : Int), (intOfDigitList c : Int))
    else none
  | _ => none

/-- The invariant of Python's `datetime.date` constructor: year in the
supported range 1–9999, month and day forming a real calendar day. -/
def pydateValid (y m d : Int) : Prop := 1 ≤ y ∧ y ≤ 9999 ∧ GValid ⟨y, m, d⟩

instance (y m d : Int) : Decidable (pydateValid y m d) := by
  unfold pydateValid; infer_instance

/-- `parse_gregorian(s)` : pattern failure raises the format error,
`date(y, m, d)` raises on a non-real calendar date. -/
def parse_gregorian (s : String) : Except Err GDate :=
  match parseTriple (_normalize_sep s) with
  | none => .error .InvalidFormat
  | some (y, m, d) =>
    if pydateValid y m d then .ok ⟨y, m, d⟩ else .error .InvalidCalendarDate

/-- `parse_jalali_tuple(s)` : same normalization and pattern, but the raw
triple is returned without any calendar validation. -/
def parse_jalali_tuple (s : String) : Except Err (Int × Int × Int) :=
  match parseTriple (_normalize_sep s) with
  | none => .error .InvalidFormat
  | some t => .ok t

/-! ## Current-date resolution (`plausible_year`, `get_current_date`) -/

/-- The branch a resolved "today" came from. -/
inductive TodayBranch where
  | localClock
  | onlineSource
  | fallbackDate
  deriving DecidableEq, Repr

/-- `plausible_year(y)` : the sanity window 1970–2100. -/
def plausible_year (y : Int) : Bool :=
  decide (1970 ≤ y) && decide (y ≤ 2100)

/-- The online-then-fallback tail of `get_current_date`: a fetched date
with a plausible year, otherwise the fixed date 2000-01-01. -/
def _online_or_fallback (onlineToday : Option GDate) : GDate :=
  match onlineToday with
  | some o => if plausible_year o.year then o else ⟨2000, 1, 1⟩
  | none => ⟨2000, 1, 1⟩

/-- `get_current_date()` as a function of its two inputs: the system
clock reading (`none` when `date.today()` raises) and the online fetch
result (`none` when every endpoint fails).  It returns a bare date. -/
def get_current_date (localToday onlineToday : Option GDate) : GDate :=
  match localToday with
  | some t => if plausible_year t.year then t else _online_or_fallback onlineToday
  | none => _online_or_fallback onlineToday

/-- Modelled from the spec: `resolveToday` as the spec would have it, the
same branch order but returning the date together with the branch tag. -/
def resolveToday (localToday onlineToday : Option GDate) : GDate × TodayBranch :=
  match localToday with
  | some t =>
    if plausible_year t.year then (t, .localClock)
    else
      match onlineToday with
      | some o =>
        if plausible_year o.year then (o, .onlineSource)
        else (⟨2000, 1, 1⟩, .fallbackDate)
      | none => (⟨2000, 1, 1⟩, .fallbackDate)
  | none =>
    match onlineToday with
    | some o =>
      if plausible_year o.year then (o, .onlineSource)
      else (⟨2000, 1, 1⟩, .fallbackDate)
    | none => (⟨2000, 1, 1⟩, .fallbackDate)

/-! ## Flow layer -/

/-- The computation of one loop iteration of `calculate_age_jalali_flow`:
the capability is checked before anything else; then today is resolved,
the input parsed, converted, and the age computed. -/
def calculate_age_jalali_flow (jalaliOk : Bool)
    (localToday onlineToday : Option GDate) (input : String) :
    Except Err (Int × Int × Int) :=
  if ! jalaliOk then .error .CapabilityUnavailable
  else
    match parse_jalali_tuple (normalize_digits input) with
    | .error e => .error e
    | .ok (jy, jm, jd_) =>
      match jtuple_to_gdate jalaliOk jy jm jd_ with
      | .error e => .error e
      | .ok born => age_ymd born (get_current_date localToday onlineToday)

/-! ## Helper lemmas about the operations -/

theorem not_dlt_of_dle (a b : GDate) (h : dle a b) : ¬ dlt b a := by
  rcases h with h | rfl
  · unfold dlt at *
    omega
  · unfold dlt
    omega

theorem dlt_of_not_dle (a b : GDate) (h : ¬ dle a b) : dlt b a := by
  rcases a with ⟨p1, p2, p3⟩
  rcases b with ⟨q1, q2, q3⟩
  unfold dle dlt at *
  simp only [GDate.mk.injEq] at h
  simp only at *
  omega

theorem dle_numeric (a b : GDate) (h : dle a b) :
    a.year < b.year ∨ (a.year = b.year ∧ (a.month < b.month ∨
      (a.month = b.month ∧ a.day ≤ b.day))) := by
  rcases h with h | rfl
  · unfold dlt at h
    omega
  · omega

theorem monthLen_bounds (y m : Int) (h1 : 1 ≤ m) (h2 : m ≤ 12) :
    28 ≤ monthLen y m ∧ monthLen y m ≤ 31 := by
  unfold monthLen gregMonthLens
  interval_cases m <;> by_cases h : gregLeap y <;>
    simp [h, List.getD] <;> omega

theorem safe_date_valid (y m d : Int) (h1 : 1 ≤ m) (h2 : m ≤ 12) (h3 : 1 ≤ d) :
    GValid (_safe_date y m d) := by
  have hml := monthLen_bounds y m h1 h2
  unfold _safe_date GValid
  dsimp only
  refine ⟨h1, h2, ?_, ?_⟩ <;> omega

theorem next_birthday_gt (born today : GDate) :
    dlt today (next_birthday_after born today) := by
  unfold next_birthday_after
  by_cases h : dle (_safe_date today.year born.month born.day) today
  · rw [if_pos h]
    unfold _safe_date dlt
    dsimp only
    omega
  · rw [if_neg h]
    exact dlt_of_not_dle _ _ h

theorem next_birthday_valid (born today : GDate) (hb : GValid born) :
    GValid (next_birthday_after born today) := by
  obtain ⟨b1, b2, b3, b4⟩ := hb
  unfold next_birthday_after
  by_cases h : dle (_safe_date today.year born.month born.day) today
  · rw [if_pos h]
    exact safe_date_valid _ _ _ b1 b2 b3
  · rw [if_neg h]
    exact safe_date_valid _ _ _ b1 b2 b3

/-! ## Claim theorems -/

/-- C1: For every valid Gregorian date g, converting it to Jalali with
gdate_to_jtuple and back with jtuple_to_gdate yields g again; and for
every structurally valid Jalali date j the converse composition yields
the triple of j again. -/
theorem C1_round_trip :
    (∀ g : GDate, GValid g →
      (gdate_to_jtuple true g).bind
        (fun t => jtuple_to_gdate true t.1 t.2.1 t.2.2) = .ok g) ∧
    (∀ j : JDate, JValid j →
      (jtuple_to_gdate true j.year j.month j.day).bind
        (fun g2 => gdate_to_jtuple true g2) = .ok (j.year, j.month, j.day)) := by
  constructor
  · intro g hg
    obtain ⟨hjdn, hjv⟩ := jJdn_jOfJdn (gJdn g)
    have hjv2 : JValid ⟨(jOfJdn (gJdn g)).year, (jOfJdn (gJdn g)).month,
        (jOfJdn (gJdn g)).day⟩ := hjv
    have hjdn2 : jJdn ⟨(jOfJdn (gJdn g)).year, (jOfJdn (gJdn g)).month,
        (jOfJdn (gJdn g)).day⟩ = gJdn g := hjdn
    unfold gdate_to_jtuple gregorianToJalali jtuple_to_gdate jalaliToGregorian
    simp only [Bool.not_true, Except.bind, if_false, Bool.false_eq_true, ite_false]
    rw [if_pos hjv2, hjdn2, gOfJdn_gJdn g hg]
  · intro j hj
    have hjv2 : JValid ⟨j.year, j.month, j.day⟩ := hj
    obtain ⟨hg, hgv⟩ := gJdn_gOfJdn (jJdn j)
    have hjj : (⟨j.year, j.month, j.day⟩ : JDate) = j := rfl
    unfold jtuple_to_gdate jalaliToGregorian gdate_to_jtuple gregorianToJalali
    simp only [Bool.not_true, Except.bind, if_false, Bool.false_eq_true, ite_false]
    rw [if_pos hjv2, hjj]
    dsimp only
    rw [hg, jOfJdn_jJdn j hj]

/-- C1 witness at the spec's golden pair Gregorian 2025-10-18 ↔ Jalali
1404-07-26. -/
theorem C1_round_trip_witness :
    (gdate_to_jtuple true ⟨2025, 10, 18⟩).bind
      (fun t => jtuple_to_gdate true t.1 t.2.1 t.2.2) = .ok ⟨2025, 10, 18⟩ ∧
    (jtuple_to_gdate true 1404 7 26).bind
      (fun g2 => gdate_to_jtuple true g2) = .ok (1404, 7, 26) := by
  constructor
  · exact C1_round_trip.1 ⟨2025, 10, 18⟩ (by decide)
  · exact C1_round_trip.2 ⟨1404, 7, 26⟩ (by decide)

/-- C3: age_ymd fails with FutureBirthdate exactly when born > today, and
for born ≤ today it returns a result normally. -/
theorem C3_future_birthdate (born today : GDate) :
    (age_ymd born today = .error .FutureBirthdate ↔ dlt today born) ∧
    (dle born today → ∃ r, age_ymd born today = .ok r) := by
  constructor
  · constructor
    · intro h
      by_contra hc
      unfold age_ymd at h
      rw [if_neg hc] at h
      dsimp only at h
      exact Except.noConfusion h
    · intro h
      unfold age_ymd
      rw [if_pos h]
  · intro h
    have hnot := not_dlt_of_dle born today h
    unfold age_ymd
    rw [if_neg hnot]
    exact ⟨_, rfl⟩

/-- C3 witness: the spec's example born 2030-01-01, today 2025-01-01
raises FutureBirthdate, and a past birthdate returns normally. -/
theorem C3_future_birthdate_witness :
    age_ymd ⟨2030, 1, 1⟩ ⟨2025, 1, 1⟩ = .error .FutureBirthdate ∧
    (∃ r, age_ymd ⟨1990, 7, 15⟩ ⟨2025, 10, 18⟩ = .ok r) := by
  constructor
  · exact (C3_future_birthdate ⟨2030, 1, 1⟩ ⟨2025, 1, 1⟩).1.mpr (by decide)
  · exact (C3_future_birthdate ⟨1990, 7, 15⟩ ⟨2025, 10, 18⟩).2 (by decide)

/-- C9: when the Jalali capability is absent, both conversion wrappers and
the Jalali age flow (which checks availability before any conversion)
fail fast with the distinct CapabilityUnavailable condition. -/
theorem C9_capability_unavailable (g : GDate) (jy jm jd_ : Int)
    (localToday onlineToday : Option GDate) (input : String) :
    gdate_to_jtuple false g = .error .CapabilityUnavailable ∧
    jtuple_to_gdate false jy jm jd_ = .error .CapabilityUnavailable ∧
    calculate_age_jalali_flow false localToday onlineToday input
      = .error .CapabilityUnavailable :=
  ⟨rfl, rfl, rfl⟩

/-- C9 witness at concrete arguments. -/
theorem C9_capability_unavailable_witness :
    gdate_to_jtuple false ⟨2025, 10, 18⟩ = .error .CapabilityUnavailable ∧
    jtuple_to_gdate false 1404 7 26 = .error .CapabilityUnavailable ∧
    calculate_age_jalali_flow false (some ⟨2025, 10, 18⟩) none "1369-04-24"
      = .error .CapabilityUnavailable :=
  C9_capability_unavailable ⟨2025, 10, 18⟩ 1404 7 26 (some ⟨2025, 10, 18⟩) none
    "1369-04-24"

/-- C2 counterexample: born 2025-01-31 and today 2025-03-01 are valid
dates with born ≤ today, yet age_ymd returns (0, 1, -2) — the days
component is negative, outside the claimed range 0..(days in the
borrowed month). -/
theorem C2_age_ymd_counterexample :
    GValid ⟨2025, 1, 31⟩ ∧ GValid ⟨2025, 3, 1⟩ ∧
    dle ⟨2025, 1, 31⟩ ⟨2025, 3, 1⟩ ∧
    age_ymd ⟨2025, 1, 31⟩ ⟨2025, 3, 1⟩ = .ok (0, 1, -2) ∧
    (-2 : Int) < 0 :=
  ⟨by decide, by decide, by decide, rfl, by decide⟩

/-- C2 (amended): for valid born ≤ today, age_ymd computes the subtract-
then-borrow result whose years are ≥ 0 and months in 0..11, but whose
days lie in -2..30: the days component can be negative (as low as -2)
when the day difference is borrowed against a shorter preceding month;
the spec's example born 1990-07-15, today 2025-10-18 gives (35, 3, 3). -/
theorem C2_age_ymd_bounds (born today : GDate)
    (hb : GValid born) (ht : GValid today) (hle : dle born today) :
    ∃ r : Int × Int × Int, age_ymd born today = .ok r ∧
      0 ≤ r.1 ∧ 0 ≤ r.2.1 ∧ r.2.1 ≤ 11 ∧ -2 ≤ r.2.2 ∧ r.2.2 ≤ 30 := by
  have hnot := not_dlt_of_dle born today hle
  have hlex := dle_numeric born today hle
  have hmlb := monthLen_bounds born.year born.month hb.1 hb.2.1
  have hmlt := monthLen_bounds today.year today.month ht.1 ht.2.1
  have hml12 := monthLen_bounds (today.year - 1) 12 (by omega) (by omega)
  obtain ⟨b1, b2, b3, b4⟩ := hb
  obtain ⟨t1, t2, t3, t4⟩ := ht
  unfold age_ymd
  rw [if_neg hnot]
  dsimp only
  by_cases htm : today.month = 1
  · rw [if_pos htm]
    dsimp only
    refine ⟨_, rfl, ?_, ?_, ?_, ?_, ?_⟩ <;> dsimp only <;> split_ifs <;> omega
  · rw [if_neg htm]
    dsimp only
    have hmlp := monthLen_bounds today.year (today.month - 1) (by omega) (by omega)
    refine ⟨_, rfl, ?_, ?_, ?_, ?_, ?_⟩ <;> dsimp only <;> split_ifs <;> omega

/-- C2 witness: the amended bounds at the spec's example input, together
with the exact example value (35, 3, 3). -/
theorem C2_age_ymd_bounds_witness :
    age_ymd ⟨1990, 7, 15⟩ ⟨2025, 10, 18⟩ = .ok (35, 3, 3) ∧
    (∃ r : Int × Int × Int, age_ymd ⟨1990, 7, 15⟩ ⟨2025, 10, 18⟩ = .ok r ∧
      0 ≤ r.1 ∧ 0 ≤ r.2.1 ∧ r.2.1 ≤ 11 ∧ -2 ≤ r.2.2 ∧ r.2.2 ≤ 30) :=
  ⟨rfl, C2_age_ymd_bounds ⟨1990, 7, 15⟩ ⟨2025, 10, 18⟩ (by decide) (by decide)
    (by decide)⟩

/-- C4 counterexample: for born 2000-02-29 and today 2025-03-01 the code
returns 2026-02-28 — not 2025-02-28 as the claim states, because the
clamped candidate 2025-02-28 is ≤ today and the year is advanced. -/
theorem C4_next_birthday_counterexample :
    next_birthday_after ⟨2000, 2, 29⟩ ⟨2025, 3, 1⟩ = ⟨2026, 2, 28⟩ ∧
    next_birthday_after ⟨2000, 2, 29⟩ ⟨2025, 3, 1⟩ ≠ ⟨2025, 2, 28⟩ :=
  ⟨by decide, by decide⟩

/-- C4 (amended): next_birthday_after builds the candidate from today's
year and born's month/day with the day clamped to the last valid day of
that month, rebuilds it in year+1 with the same clamping when the
candidate is ≤ today, and the result is always strictly after today; for
a Feb-29 birthdate with today 2025-03-01 the result is 2026-02-28 (the
observance lands on Feb 28, not Mar 1, of the following year). -/
theorem C4_next_birthday (born today : GDate) :
    (next_birthday_after born today =
      if dle (_safe_date today.year born.month born.day) today then
        _safe_date (today.year + 1) born.month born.day
      else _safe_date today.year born.month born.day) ∧
    (_safe_date today.year born.month born.day
      = ⟨today.year, born.month, min born.day (monthLen today.year born.month)⟩) ∧
    dlt today (next_birthday_after born today) :=
  ⟨rfl, rfl, next_birthday_gt born today⟩

/-- C4 witness at the Feb-29 example input. -/
theorem C4_next_birthday_witness :
    (next_birthday_after ⟨2000, 2, 29⟩ ⟨2025, 3, 1⟩ =
      if dle (_safe_date 2025 2 29) ⟨2025, 3, 1⟩ then _safe_date 2026 2 29
      else _safe_date 2025 2 29) ∧
    dlt ⟨2025, 3, 1⟩ (next_birthday_after ⟨2000, 2, 29⟩ ⟨2025, 3, 1⟩) :=
  ⟨(C4_next_birthday ⟨2000, 2, 29⟩ ⟨2025, 3, 1⟩).1,
   (C4_next_birthday ⟨2000, 2, 29⟩ ⟨2025, 3, 1⟩).2.2⟩

/-- C5: days_until_next_birthday equals the integer day difference
between the next_birthday_after result and today, and is ≥ 0. -/
theorem C5_days_until (born today : GDate) (hb : GValid born) (ht : GValid today) :
    days_until_next_birthday born today
      = gJdn (next_birthday_after born today) - gJdn today ∧
    0 ≤ days_until_next_birthday born today := by
  refine ⟨rfl, ?_⟩
  have h := gJdn_strict_mono today (next_birthday_after born today) ht
    (next_birthday_valid born today hb) (next_birthday_gt born today)
  unfold days_until_next_birthday
  omega

/-- C5 witness at the spec's example input. -/
theorem C5_days_until_witness :
    days_until_next_birthday ⟨1990, 7, 15⟩ ⟨2025, 10, 18⟩
      = gJdn (next_birthday_after ⟨1990, 7, 15⟩ ⟨2025, 10, 18⟩) - gJdn ⟨2025, 10, 18⟩ ∧
    0 ≤ days_until_next_birthday ⟨1990, 7, 15⟩ ⟨2025, 10, 18⟩ :=
  C5_days_until ⟨1990, 7, 15⟩ ⟨2025, 10, 18⟩ (by decide) (by decide)

/-- C10: for valid born ≤ today the number of days until the next
birthday is strictly positive, and when today's clamped observance
equals today itself the next birthday is placed in year today.year + 1. -/
theorem C10_days_until_pos (born today : GDate)
    (hb : GValid born) (ht : GValid today) (hle : dle born today) :
    1 ≤ days_until_next_birthday born today ∧
    (_safe_date today.year born.month born.day = today →
      (next_birthday_after born today).year = today.year + 1) := by
  constructor
  · have h := gJdn_strict_mono today (next_birthday_after born today) ht
      (next_birthday_valid born today hb) (next_birthday_gt born today)
    unfold days_until_next_birthday
    omega
  · intro heq
    unfold next_birthday_after
    rw [if_pos (by rw [heq]; exact Or.inr rfl)]
    rfl

/-- C10 witness: a birthday falling exactly on today is pushed to the
next year and the distance is ≥ 1. -/
theorem C10_days_until_pos_witness :
    1 ≤ days_until_next_birthday ⟨1990, 7, 15⟩ ⟨2025, 7, 15⟩ ∧
    (_safe_date 2025 7 15 = (⟨2025, 7, 15⟩ : GDate) →
      (next_birthday_after ⟨1990, 7, 15⟩ ⟨2025, 7, 15⟩).year = 2025 + 1) :=
  C10_days_until_pos ⟨1990, 7, 15⟩ ⟨2025, 7, 15⟩ (by decide) (by decide) (by decide)

/-- C6: digit normalization maps every Persian (U+06F0–U+06F9) and
Arabic-Indic (U+0660–U+0669) digit to its ASCII counterpart;
parse_gregorian (after separator normalization) requires the exact
4-1..2-1..2 digit pattern, failing with InvalidFormat when it does not
match and with InvalidCalendarDate when the matched numbers are not a
real Gregorian date; the input "۱۳۷۰-۰۴-۲۴" parses identically to
"1370-04-24", and slash/dot separators are normalized to dashes. -/
theorem C6_parse_gregorian :
    (∀ k : Fin 10, P2L (Char.ofNat (0x6F0 + k.val)) = Char.ofNat (48 + k.val) ∧
      P2L (Char.ofNat (0x660 + k.val)) = Char.ofNat (48 + k.val)) ∧
    (∀ s : String, parseTriple (_normalize_sep s) = none →
      parse_gregorian s = .error .InvalidFormat) ∧
    (∀ s : String, ∀ y m d : Int, parseTriple (_normalize_sep s) = some (y, m, d) →
      (pydateValid y m d → parse_gregorian s = .ok ⟨y, m, d⟩) ∧
      (¬ pydateValid y m d → parse_gregorian s = .error .InvalidCalendarDate)) ∧
    normalize_digits "۱۳۷۰-۰۴-۲۴" = "1370-04-24" ∧
    parse_gregorian (normalize_digits "۱۳۷۰-۰۴-۲۴") = parse_gregorian "1370-04-24" ∧
    parse_gregorian "1370-04-24" = .ok ⟨1370, 4, 24⟩ ∧
    parse_gregorian "1990/07.15" = parse_gregorian "1990-07-15" ∧
    parse_gregorian "1990-13-05" = .error .InvalidCalendarDate ∧
    parse_gregorian "199-07-15" = .error .InvalidFormat := by
  refine ⟨by decide, ?_, ?_, by decide, rfl, rfl, rfl, rfl, rfl⟩
  · intro s h
    unfold parse_gregorian
    rw [h]
  · intro s y m d h
    constructor
    · intro hv
      unfold parse_gregorian
      rw [h]
      dsimp only
      rw [if_pos hv]
    · intro hv
      unfold parse_gregorian
      rw [h]
      dsimp only
      rw [if_neg hv]

/-- C6 witness: the pattern-error and calendar-error branches of the
theorem applied at concrete inputs. -/
theorem C6_parse_gregorian_witness :
    parse_gregorian "0000-01-02" = .error .InvalidCalendarDate ∧
    parse_gregorian "abcd-01-02" = .error .InvalidFormat :=
  ⟨(C6_parse_gregorian.2.2.1 "0000-01-02" 0 1 2 (by decide)).2 (by decide),
   C6_parse_gregorian.2.1 "abcd-01-02" (by decide)⟩

/-- C7: parse_jalali_tuple applies the same normalization and pattern
check but returns the raw triple without any Jalali calendar validation
— every pattern-matching input succeeds — and an invalid triple fails
only later, inside jtuple_to_gdate, with InvalidCalendarDate (a
conversion failure, not a parse failure); witnessed by 1404-12-30, which
parses fine but is not a real Jalali date. -/
theorem C7_parse_jalali_deferred :
    (∀ s : String, ∀ t : Int × Int × Int, parseTriple (_normalize_sep s) = some t →
      parse_jalali_tuple s = .ok t) ∧
    (∀ s : String, parseTriple (_normalize_sep s) = none →
      parse_jalali_tuple s = .error .InvalidFormat) ∧
    (∀ jy jm jd_ : Int, ¬ JValid ⟨jy, jm, jd_⟩ →
      jtuple_to_gdate true jy jm jd_ = .error .InvalidCalendarDate) ∧
    parse_jalali_tuple "1404-12-30" = .ok (1404, 12, 30) ∧
    ¬ JValid ⟨1404, 12, 30⟩ ∧
    jtuple_to_gdate true 1404 12 30 = .error .InvalidCalendarDate := by
  refine ⟨?_, ?_, ?_, rfl, by decide, ?_⟩
  · intro s t h
    unfold parse_jalali_tuple
    rw [h]
  · intro s h
    unfold parse_jalali_tuple
    rw [h]
  · intro jy jm jd_ h
    show jalaliToGregorian jy jm jd_ = .error .InvalidCalendarDate
    unfold jalaliToGregorian
    rw [if_neg h]
  · show jalaliToGregorian 1404 12 30 = .error .InvalidCalendarDate
    unfold jalaliToGregorian
    rw [if_neg (by decide)]

/-- C7 witness: the deferred-validation pipeline at a concrete invalid
Jalali input that nevertheless parses. -/
theorem C7_parse_jalali_deferred_witness :
    parse_jalali_tuple "1404-12-31" = .ok (1404, 12, 31) ∧
    jtuple_to_gdate true 1404 12 31 = .error .InvalidCalendarDate :=
  ⟨C7_parse_jalali_deferred.1 "1404-12-31" (1404, 12, 31) (by decide),
   C7_parse_jalali_deferred.2.2.1 1404 12 31 (by decide)⟩

/-- C8 counterexample: get_current_date returns only a bare date, so it
does not indicate which branch was taken — a plausible local clock
2000-01-01 (local branch) and an implausible 1969 clock with no network
(fallback branch) produce the identical return value 2000-01-01, while
the branches taken differ. -/
theorem C8_counterexample :
    get_current_date (some ⟨2000, 1, 1⟩) none
      = get_current_date (some ⟨1969, 5, 5⟩) none ∧
    (resolveToday (some ⟨2000, 1, 1⟩) none).2 = TodayBranch.localClock ∧
    (resolveToday (some ⟨1969, 5, 5⟩) none).2 = TodayBranch.fallbackDate ∧
    get_current_date (some ⟨1969, 5, 5⟩) none = ⟨2000, 1, 1⟩ :=
  ⟨by decide, by decide, by decide, by decide⟩

/-- C8 (amended): get_current_date tries its sources in the fixed order
local-clock, online, fallback 2000-01-01, but returns only the bare
chosen date, not a discriminated result; its value agrees with the
spec's tagged resolver, the fallback branch always yields 2000-01-01,
the local branch returns the clock date, and a 1969 system clock with a
failing network yields 2000-01-01. -/
theorem C8_get_current_date (localToday onlineToday : Option GDate) :
    get_current_date localToday onlineToday
      = (resolveToday localToday onlineToday).1 ∧
    ((resolveToday localToday onlineToday).2 = TodayBranch.fallbackDate →
      get_current_date localToday onlineToday = ⟨2000, 1, 1⟩) ∧
    ((resolveToday localToday onlineToday).2 = TodayBranch.localClock →
      localToday = some (get_current_date localToday onlineToday)) ∧
    get_current_date (some ⟨1969, 1, 1⟩) none = ⟨2000, 1, 1⟩ := by
  refine ⟨?_, ?_, ?_, by decide⟩
  all_goals
    cases localToday with
    | some t =>
      cases onlineToday with
      | some o =>
        unfold get_current_date resolveToday _online_or_fallback
        by_cases h1 : plausible_year t.year = true <;>
          by_cases h2 : plausible_year o.year = true <;> simp [h1, h2]
      | none =>
        unfold get_current_date resolveToday _online_or_fallback
        by_cases h1 : plausible_year t.year = true <;> simp [h1]
    | none =>
      cases onlineToday with
      | some o =>
        unfold get_current_date resolveToday _online_or_fallback
        by_cases h2 : plausible_year o.year = true <;> simp [h2]
      | none =>
        unfold get_current_date resolveToday _online_or_fallback
        simp

/-- C8 witness: the 1969-clock, failed-network configuration lands in
the fallback branch with value 2000-01-01. -/
theorem C8_get_current_date_witness :
    (resolveToday (some ⟨1969, 1, 1⟩) none).2 = TodayBranch.fallbackDate ∧
    get_current_date (some ⟨1969, 1, 1⟩) none = ⟨2000, 1, 1⟩ :=
  ⟨by decide, (C8_get_current_date (some ⟨1969, 1, 1⟩) none).2.1 (by decide)⟩
